import Mathlib

/-!
Verification development for the persistent subprocess RPC bridge of the
CareerBuddy backend (`src/backend/src/services/ragChat.ts`, class
`RAGChatService`).  The bridge is embedded as a deterministic transition
system over the class fields (`pythonProcess`, `isInitialized`,
`initializationPromise`, `pendingRequests`, `outputBuffer`), driven by the
events that Node's event loop delivers atomically: public calls, stdout
data chunks, timer callbacks, process close, and shutdown.  Strings are
modelled as `List Char`; `JSON.parse` is modelled by an executable
recursive-descent parser over the JSON grammar.
-/

set_option maxRecDepth 10000

/-- Opening brace character, kept as a named constant. -/
def lbrace : Char := Char.ofNat 123

/-- Closing brace character, kept as a named constant. -/
def rbrace : Char := Char.ofNat 125

/-- A JSON value as produced by `JSON.parse`.  Numbers keep their source
lexeme (no claim in this development depends on numeric value beyond
zero-ness).  Object fields keep source order; duplicate keys are resolved
by `jsGet` taking the last occurrence, as `JSON.parse` does. -/
inductive Json where
  | null
  | bool (b : Bool)
  | num (lexeme : List Char)
  | str (s : List Char)
  | arr (elems : List Json)
  | obj (fields : List (List Char × Json))

/-- JSON whitespace (the four characters the JSON grammar allows). -/
def isJsonWs (c : Char) : Bool :=
  c = ' ' || c = '\t' || c = '\n' || c = '\r'

/-- Skip leading JSON whitespace. -/
def skipWs (cs : List Char) : List Char := cs.dropWhile isJsonWs

/-- Value of one hex digit. -/
def hexDigitVal (c : Char) : Option Nat :=
  if '0' ≤ c ∧ c ≤ '9' then some (c.toNat - 48)
  else if 'a' ≤ c ∧ c ≤ 'f' then some (c.toNat - 87)
  else if 'A' ≤ c ∧ c ≤ 'F' then some (c.toNat - 55)
  else none

/-- Decode a single-character JSON escape. -/
def escSimple (e : Char) : Option Char :=
  if e = '"' then some '"'
  else if e = '\\' then some '\\'
  else if e = '/' then some '/'
  else if e = 'b' then some (Char.ofNat 8)
  else if e = 'f' then some (Char.ofNat 12)
  else if e = 'n' then some '\n'
  else if e = 'r' then some '\r'
  else if e = 't' then some '\t'
  else none

/-- Parse the body of a JSON string after the opening quote, returning the
decoded characters and the remaining input.  `\uXXXX` escapes that do not
denote a Unicode scalar value (lone surrogates) are rejected, a harmless
narrowing of JavaScript strings that no claim exercises. -/
def parseStrBody : Nat → List Char → Option (List Char × List Char)
  | 0, _ => none
  | _, [] => none
  | fuel + 1, c :: rest =>
    if c = '"' then some ([], rest)
    else if c = '\\' then
      match rest with
      | [] => none
      | e :: rest2 =>
        if e = 'u' then
          match rest2 with
          | h1 :: h2 :: h3 :: h4 :: rest3 =>
            match hexDigitVal h1, hexDigitVal h2, hexDigitVal h3, hexDigitVal h4 with
            | some a, some b, some c2, some d =>
              let n := ((a * 16 + b) * 16 + c2) * 16 + d
              if n < 0xd800 ∨ (0xe000 ≤ n ∧ n < 0x110000) then
                match parseStrBody fuel rest3 with
                | some (s, r) => some (Char.ofNat n :: s, r)
                | none => none
              else none
            | _, _, _, _ => none
          | _ => none
        else
          match escSimple e with
          | some d =>
            match parseStrBody fuel rest2 with
            | some (s, r) => some (d :: s, r)
            | none => none
          | none => none
    else if c.toNat < 32 then none
    else
      match parseStrBody fuel rest with
      | some (s, r) => some (c :: s, r)
      | none => none

/-- Split a character list into its leading run of decimal digits and the
rest. -/
def digitsOf (cs : List Char) : List Char × List Char :=
  (cs.takeWhile Char.isDigit, cs.dropWhile Char.isDigit)

/-- Parse an optional JSON fraction part (`. digits`). -/
def parseFrac (cs : List Char) : Option (List Char × List Char) :=
  match cs with
  | '.' :: r =>
    let (d, r2) := digitsOf r
    if d = [] then none else some ('.' :: d, r2)
  | _ => some ([], cs)

/-- Parse an optional JSON exponent part (`[eE] [+-]? digits`). -/
def parseExpPart (cs : List Char) : Option (List Char × List Char) :=
  match cs with
  | e :: r =>
    if e = 'e' ∨ e = 'E' then
      let (sgn, r1) := match r with
        | s :: r2 => if s = '+' ∨ s = '-' then ([s], r2) else (([] : List Char), s :: r2)
        | [] => (([] : List Char), ([] : List Char))
      let (d, r2) := digitsOf r1
      if d = [] then none else some (e :: (sgn ++ d), r2)
    else some ([], cs)
  | [] => some ([], cs)

/-- Parse a JSON number lexeme (`-? int frac? exp?`), returning the lexeme
and the remaining input. -/
def parseNumLex (cs : List Char) : Option (List Char × List Char) :=
  let (sign, cs1) := match cs with
    | '-' :: r => (['-'], r)
    | _ => (([] : List Char), cs)
  let (ip, cs2) := digitsOf cs1
  if ip = [] then none
  else
    match parseFrac cs2 with
    | none => none
    | some (fp, cs3) =>
      match parseExpPart cs3 with
      | none => none
      | some (ep, cs4) => some (sign ++ ip ++ fp ++ ep, cs4)

mutual

/-- Parse one JSON value, returning it with the remaining input.
Fuel-indexed recursive descent over the JSON grammar of `JSON.parse`. -/
def parseVal : Nat → List Char → Option (Json × List Char)
  | 0, _ => none
  | fuel + 1, cs =>
    match skipWs cs with
    | [] => none
    | c :: rest =>
      if c = 'n' then
        match rest with
        | 'u' :: 'l' :: 'l' :: r => some (Json.null, r)
        | _ => none
      else if c = 't' then
        match rest with
        | 'r' :: 'u' :: 'e' :: r => some (Json.bool true, r)
        | _ => none
      else if c = 'f' then
        match rest with
        | 'a' :: 'l' :: 's' :: 'e' :: r => some (Json.bool false, r)
        | _ => none
      else if c = '"' then
        match parseStrBody (rest.length + 1) rest with
        | some (s, r) => some (Json.str s, r)
        | none => none
      else if c = '[' then
        match skipWs rest with
        | ']' :: r => some (Json.arr [], r)
        | _ =>
          match parseArrItems fuel rest with
          | some (xs, r) => some (Json.arr xs, r)
          | none => none
      else if c = lbrace then
        match skipWs rest with
        | d :: r => if d = rbrace then some (Json.obj [], r) else
            match parseObjItems fuel rest with
            | some (fs, r2) => some (Json.obj fs, r2)
            | none => none
        | [] => none
      else
        match parseNumLex (c :: rest) with
        | some (lex, r) => some (Json.num lex, r)
        | none => none

/-- Parse the comma-separated items of a JSON array up to the closing
bracket. -/
def parseArrItems : Nat → List Char → Option (List Json × List Char)
  | 0, _ => none
  | fuel + 1, cs =>
    match parseVal fuel cs with
    | none => none
    | some (j, r1) =>
      match skipWs r1 with
      | ',' :: r2 =>
        match parseArrItems fuel r2 with
        | some (xs, r) => some (j :: xs, r)
        | none => none
      | ']' :: r2 => some ([j], r2)
      | _ => none

/-- Parse the comma-separated members of a JSON object up to the closing
brace. -/
def parseObjItems : Nat → List Char → Option (List (List Char × Json) × List Char)
  | 0, _ => none
  | fuel + 1, cs =>
    match skipWs cs with
    | '"' :: r0 =>
      match parseStrBody (r0.length + 1) r0 with
      | none => none
      | some (k, r1) =>
        match skipWs r1 with
        | ':' :: r2 =>
          match parseVal fuel r2 with
          | none => none
          | some (v, r3) =>
            match skipWs r3 with
            | ',' :: r4 =>
              match parseObjItems fuel r4 with
              | some (fs, r) => some ((k, v) :: fs, r)
              | none => none
            | d :: r4 =>
              if d = rbrace then some ([(k, v)], r4) else none
            | [] => none
        | _ => none
    | _ => none

end

/-- Model of `JSON.parse(line)`: parse one JSON value and require that only
whitespace remains; `none` models the thrown `SyntaxError`. -/
def parseJson (cs : List Char) : Option Json :=
  match parseVal (2 * cs.length + 8) cs with
  | some (j, rest) => if skipWs rest = [] then some j else none
  | none => none

/-- Property access `j[k]` on a parsed JSON value: defined (`some`) exactly
when `j` is an object with field `k`; later duplicate keys win, as in
`JSON.parse`.  `none` models JavaScript `undefined`. -/
def jsGet (j : Json) (k : List Char) : Option Json :=
  match j with
  | Json.obj fs => fs.foldl (fun acc kv => if kv.1 = k then some kv.2 else acc) none
  | _ => none

/-- Is a number lexeme the number zero (`0`, `-0`, `0.00`, `0e5`, ...)? -/
def numIsZero (lex : List Char) : Bool :=
  (lex.filter Char.isDigit).all (· = '0')

/-- JavaScript truthiness of a parsed JSON value (`undefined` is handled by
`Option` at call sites). -/
def jsTruthy : Json → Bool
  | Json.null => false
  | Json.bool b => b
  | Json.num lex => !numIsZero lex
  | Json.str s => !s.isEmpty
  | Json.arr _ => true
  | Json.obj _ => true

/-- String coercion of a JSON value, used for `new Error(value)`.  Array
contents are approximated by the empty string and objects by
"[object Object]"; no claim exercises a non-string error message. -/
def jsToText : Json → List Char
  | Json.null => "null".data
  | Json.bool true => "true".data
  | Json.bool false => "false".data
  | Json.num lex => lex
  | Json.str s => s
  | Json.arr _ => []
  | Json.obj _ => "[object Object]".data

/-- The check `response.status === 'error'` in `processResponseLine`. -/
def statusIsError (j : Json) : Bool :=
  match jsGet j ("status".data) with
  | some (Json.str s) => s = "error".data
  | _ => false

/-- The check `response.status === 'success'` in the initialization
resolve closure. -/
def statusIsSuccess (j : Json) : Bool :=
  match jsGet j ("status".data) with
  | some (Json.str s) => s = "success".data
  | _ => false

/-- JavaScript split on `'\n'`: the list of fragments between newlines,
never empty, with a (possibly empty) final fragment. -/
def splitNl : List Char → List (List Char)
  | [] => [[]]
  | c :: cs =>
    if c = '\n' then [] :: splitNl cs
    else
      match splitNl cs with
      | [] => [[c]]
      | l :: ls => (c :: l) :: ls

/-- Whitespace trimmed by JavaScript `String.prototype.trim`. -/
def isJsWs (c : Char) : Bool :=
  c = ' ' || c = '\t' || c = '\n' || c = '\r' || c = Char.ofNat 11 || c = Char.ofNat 12

/-- Model of `line.trim()`. -/
def jsTrim (s : List Char) : List Char :=
  ((s.dropWhile isJsWs).reverse.dropWhile isJsWs).reverse

example : jsTrim "  hi there \n".data = "hi there".data := by decide

example : splitNl "a\nb\n".data = ["a".data, "b".data, []] := by decide

example :
    parseJson "\x7b\"status\":\"success\",\"data\":\x7b\"response\":\"hi\"\x7d\x7d".data =
      some (Json.obj [("status".data, Json.str "success".data),
        ("data".data, Json.obj [("response".data, Json.str "hi".data)])]) := by
  rfl

example : parseJson "Loading model weights...".data = none := by rfl

/-! ## The bridge state machine

One `RAGChatService` instance.  Node's event loop delivers each callback
atomically; the machine's events are exactly those callbacks plus the
synchronous part of each public call. -/

/-- Which closure pair a `PendingRequest` carries: the special
resolve/reject closures built inside `initialize()` for the `initialize`
command (tagged with the initialization attempt number), or the plain
resolve/reject of one `sendCommand` caller (tagged with the caller id). -/
inductive ReqKind where
  | initReq (attempt : Nat)
  | callReq (rid : Nat)
  deriving DecidableEq

/-- One entry of `this.pendingRequests`: the completion closures (as a
`ReqKind`) and the `timeout` handle stored with them. -/
structure Pending where
  kind : ReqKind
  timerId : Nat
  deriving DecidableEq

/-- The callback armed by a `setTimeout`: the 180s initialization timeout
(calls `rejectInit`) or the 30s per-request timeout of one caller. -/
inductive TimerCb where
  | initTimeout (attempt : Nat)
  | callTimeout (rid : Nat)
  deriving DecidableEq

/-- The fields of a `RAGChatService` instance, plus bookkeeping that makes
the environment explicit: `alive` lists processes spawned by this instance
that have not exited, `unsettledInits` lists initialization attempts whose
inner `initPromise` is not yet settled (a promise settles at most once),
`initWaiters` records which caller awaits which attempt's outer promise,
`stdinLog` records every line written to the worker's stdin, and the
`next*` counters make handles deterministic. -/
structure Bridge where
  provider : List Char
  careersJsonPath : List Char
  chromaPersistDir : List Char
  pythonProcess : Option Nat
  isInitialized : Bool
  initFlight : Option Nat
  pendingRequests : List Pending
  outputBuffer : List Char
  armedTimers : List (Nat × TimerCb)
  unsettledInits : List Nat
  initWaiters : List (Nat × Nat)
  alive : List Nat
  nextPid : Nat
  nextTimer : Nat
  nextAttempt : Nat
  spawnCount : Nat
  stdinLog : List Json

/-- A freshly constructed service (`new RAGChatService(provider)`). -/
def mkBridge (provider cjp cpd : List Char) : Bridge :=
  { provider := provider, careersJsonPath := cjp, chromaPersistDir := cpd
    pythonProcess := none, isInitialized := false, initFlight := none
    pendingRequests := [], outputBuffer := [], armedTimers := []
    unsettledInits := [], initWaiters := [], alive := []
    nextPid := 0, nextTimer := 0, nextAttempt := 0, spawnCount := 0, stdinLog := [] }

/-- Events delivered to the bridge by callers and by the event loop. -/
inductive Ev where
  | initCall (caller : Nat)
  | sendCall (rid : Nat) (cmd : Json)
  | stdoutData (chunk : List Char)
  | timerFire (tid : Nat)
  | procClose (pid : Nat)
  | shutdownCall

/-- Observable effects of one event: promise settlements of callers,
settlement of an initialization attempt's promise (observed identically by
every caller awaiting that attempt), spawns, kills, and log lines. -/
inductive Out where
  | resolved (rid : Nat) (resp : Json)
  | rejected (rid : Nat) (msg : List Char)
  | initDone (attempt : Nat) (outcome : Except (List Char) Unit)
  | initImmediate (caller : Nat)
  | spawned (pid : Nat)
  | killed (pid : Nat)
  | warnNoPending
  | parseFailed (line : List Char)

/-- Error messages of the source, verbatim. -/
def termMsg : List Char := "Python process terminated unexpectedly".data

/-- Message used by `shutdown()` when rejecting pending requests. -/
def shutMsg : List Char := "Service shutting down".data

/-- Message of the 30s per-request timeout. -/
def reqTimeoutMsg : List Char := "Request timeout (30s)".data

/-- Message of the 180s initialization timeout. -/
def initTimeoutMsg : List Char :=
  "Initialization timeout (180s). The RAG service may still be loading. Please try again in a moment.".data

/-- Fallback for `response.message || 'Unknown error'`. -/
def unknownErrMsg : List Char := "Unknown error".data

/-- Fallback for `response.message || 'Initialization failed'`. -/
def initFailedMsg : List Char := "Initialization failed".data

/-- Message thrown by `sendCommand` when the service is not initialized. -/
def notInitMsg : List Char := "RAG service not initialized".data

/-- Message thrown by `chat` on a malformed success payload. -/
def invalidChatMsg : List Char := "Invalid chat response from RAG service".data

/-- Message thrown by `generateInitialGreeting` on a malformed success
payload. -/
def invalidGreetMsg : List Char := "Invalid greeting response from RAG service".data

/-- `response.message || fallback`, coerced to the `Error` message. -/
def errMsgOf (resp : Json) (fallback : List Char) : List Char :=
  match jsGet resp ("message".data) with
  | some v => if jsTruthy v then jsToText v else fallback
  | none => fallback

/-- `clearTimeout(t)`: disarm the timer with handle `t`. -/
def clearTimer (t : Nat) (l : List (Nat × TimerCb)) : List (Nat × TimerCb) :=
  l.filter (fun tc => tc.1 ≠ t)

/-- Look up an armed timer by handle. -/
def lookupTimer (t : Nat) (l : List (Nat × TimerCb)) : Option TimerCb :=
  match l.find? (fun tc => tc.1 = t) with
  | some tc => some tc.2
  | none => none

/-- The JSON object `initialize()` writes to the worker's stdin. -/
def initCmdJson (st : Bridge) : Json :=
  Json.obj [("command".data, Json.str "initialize".data),
    ("careers_json_path".data, Json.str st.careersJsonPath),
    ("chroma_persist_dir".data, Json.str st.chromaPersistDir),
    ("provider".data, Json.str st.provider)]

/-- `rejectInit(new Error(msg))` for attempt `a`, followed by the `catch`
block of the executor: if the attempt's inner promise is still unsettled it
settles with the error, the executor's `catch` nulls
`this.initializationPromise`, and the outer promise rejects (observed by
that attempt's waiters).  Settling an already-settled promise is a no-op. -/
def rejectInitAttempt (a : Nat) (msg : List Char) (st : Bridge) : Bridge × List Out :=
  if a ∈ st.unsettledInits then
    ({ st with unsettledInits := st.unsettledInits.erase a, initFlight := none },
      [Out.initDone a (Except.error msg)])
  else (st, [])

/-- The `resolve` closure of the initialization `PendingRequest`: always
runs `this.isInitialized = true` on a success status (a side effect outside
the promise), and settles the attempt's promise if it is still pending;
a non-success status runs `rejectInit(response.message || 'Initialization
failed')`. -/
def resolveInitAttempt (a : Nat) (resp : Json) (st : Bridge) : Bridge × List Out :=
  if statusIsSuccess resp then
    let st1 := { st with isInitialized := true }
    if a ∈ st1.unsettledInits then
      ({ st1 with unsettledInits := st1.unsettledInits.erase a },
        [Out.initDone a (Except.ok ())])
    else (st1, [])
  else rejectInitAttempt a (errMsgOf resp initFailedMsg) st

/-- `processResponseLine(line)` (ragChat.ts): parse the line as JSON; on
failure log and drop it; on success shift the oldest `PendingRequest`,
clear its timeout, and reject it when `status === 'error'`, otherwise
resolve it. -/
def processResponseLine (line : List Char) (st : Bridge) : Bridge × List Out :=
  match parseJson line with
  | none => (st, [Out.parseFailed line])
  | some resp =>
    match st.pendingRequests with
    | [] => (st, [Out.warnNoPending])
    | p :: rest =>
      let st1 := { st with pendingRequests := rest,
                           armedTimers := clearTimer p.timerId st.armedTimers }
      if statusIsError resp then
        match p.kind with
        | ReqKind.callReq r => (st1, [Out.rejected r (errMsgOf resp unknownErrMsg)])
        | ReqKind.initReq a => rejectInitAttempt a (errMsgOf resp unknownErrMsg) st1
      else
        match p.kind with
        | ReqKind.callReq r => (st1, [Out.resolved r resp])
        | ReqKind.initReq a => resolveInitAttempt a resp st1

/-- The loop of the stdout data handler over the complete lines: trim each
line and process it when non-blank. -/
def processLines (ls : List (List Char)) (st : Bridge) : Bridge × List Out :=
  match ls with
  | [] => (st, [])
  | l :: rest =>
    let t := jsTrim l
    let so := if t = [] then ((st, []) : Bridge × List Out) else processResponseLine t st
    ((processLines rest so.1).1, so.2 ++ (processLines rest so.1).2)

/-- The stdout data handler: append the chunk to `outputBuffer`, split on
newline, keep the last (possibly empty) fragment as the new buffer, and
process each complete line. -/
def stepData (chunk : List Char) (st : Bridge) : Bridge × List Out :=
  let buf := st.outputBuffer ++ chunk
  let ls := splitNl buf
  let newBuf := (ls.getLast?).getD []
  let complete := ls.dropLast
  processLines complete { st with outputBuffer := newBuf }

/-- Reject every drained `PendingRequest` in order, clearing its timeout:
the body of the `while` loops in the close handler and in `shutdown()`. -/
def drainPending (msg : List Char) (ps : List Pending) (st : Bridge) : Bridge × List Out :=
  match ps with
  | [] => (st, [])
  | p :: rest =>
    let st1 := { st with armedTimers := clearTimer p.timerId st.armedTimers }
    let so :=
      match p.kind with
      | ReqKind.callReq r => ((st1, [Out.rejected r msg]) : Bridge × List Out)
      | ReqKind.initReq a => rejectInitAttempt a msg st1
    ((drainPending msg rest so.1).1, so.2 ++ (drainPending msg rest so.1).2)

/-- The `close` handler of the worker process with pid `pid`: if that
process is still recorded as alive it is removed, the bridge fields are
reset, and every pending request is rejected with the "terminated" error.
(Node only fires `close` for a process that actually exited.) -/
def stepClose (pid : Nat) (st : Bridge) : Bridge × List Out :=
  if pid ∈ st.alive then
    let st1 := { st with alive := st.alive.erase pid, isInitialized := false,
                         pythonProcess := none, initFlight := none,
                         pendingRequests := [] }
    drainPending termMsg st.pendingRequests st1
  else (st, [])

/-- `shutdown()`: if a process handle exists, kill the process, null the
handle, reset the flags and reject every pending request with the
"shutting down" error; otherwise do nothing.  The function is total: a
second call never throws. -/
def stepShutdown (st : Bridge) : Bridge × List Out :=
  match st.pythonProcess with
  | none => (st, [])
  | some pid =>
    let st1 := { st with alive := st.alive.erase pid, pythonProcess := none,
                         isInitialized := false, initFlight := none,
                         pendingRequests := [] }
    ((drainPending shutMsg st.pendingRequests st1).1,
      Out.killed pid :: (drainPending shutMsg st.pendingRequests st1).2)

/-- `initialize()` invoked by `caller`: return immediately when already
initialized with a live handle; join the in-flight attempt when
`initializationPromise` is non-null; otherwise spawn the worker, arm the
180s timeout, push the initialization `PendingRequest`, write the
`initialize` command to stdin, and store the new outer promise. -/
def stepInitCall (caller : Nat) (st : Bridge) : Bridge × List Out :=
  if st.isInitialized ∧ st.pythonProcess.isSome then
    (st, [Out.initImmediate caller])
  else
    match st.initFlight with
    | some a => ({ st with initWaiters := (caller, a) :: st.initWaiters }, [])
    | none =>
      let pid := st.nextPid
      let a := st.nextAttempt
      let tid := st.nextTimer
      ({ st with
          pythonProcess := some pid, alive := pid :: st.alive,
          nextPid := pid + 1, spawnCount := st.spawnCount + 1,
          armedTimers := (tid, TimerCb.initTimeout a) :: st.armedTimers,
          nextTimer := tid + 1,
          pendingRequests := st.pendingRequests ++ [⟨ReqKind.initReq a, tid⟩],
          stdinLog := st.stdinLog ++ [initCmdJson st],
          initFlight := some a, unsettledInits := a :: st.unsettledInits,
          nextAttempt := a + 1,
          initWaiters := (caller, a) :: st.initWaiters },
        [Out.spawned pid])

/-- The synchronous tail of `sendCommand` for caller `rid` once
`await this.initialize()` has resolved: re-check the guard, arm the 30s
timeout, push the `PendingRequest`, and write the command line to stdin. -/
def stepSendCall (rid : Nat) (cmd : Json) (st : Bridge) : Bridge × List Out :=
  if st.isInitialized ∧ st.pythonProcess.isSome then
    let tid := st.nextTimer
    ({ st with
        armedTimers := (tid, TimerCb.callTimeout rid) :: st.armedTimers,
        nextTimer := tid + 1,
        pendingRequests := st.pendingRequests ++ [⟨ReqKind.callReq rid, tid⟩],
        stdinLog := st.stdinLog ++ [cmd] },
      [])
  else (st, [Out.rejected rid notInitMsg])

/-- A timer with handle `tid` fires (only armed timers can fire; a cleared
timeout never runs).  The 30s callback removes the matching queue entry by
`findIndex` on the stored handle and rejects its caller; the 180s callback
runs `rejectInit`. -/
def stepTimer (tid : Nat) (st : Bridge) : Bridge × List Out :=
  match lookupTimer tid st.armedTimers with
  | none => (st, [])
  | some cb =>
    let st1 := { st with armedTimers := clearTimer tid st.armedTimers }
    match cb with
    | TimerCb.callTimeout r =>
      let ps := match st1.pendingRequests.findIdx? (fun p => p.timerId = tid) with
        | some i => st1.pendingRequests.eraseIdx i
        | none => st1.pendingRequests
      ({ st1 with pendingRequests := ps }, [Out.rejected r reqTimeoutMsg])
    | TimerCb.initTimeout a => rejectInitAttempt a initTimeoutMsg st1

/-- One atomic event-loop step of the bridge. -/
def stepEv (e : Ev) (st : Bridge) : Bridge × List Out :=
  match e with
  | Ev.initCall k => stepInitCall k st
  | Ev.sendCall r c => stepSendCall r c st
  | Ev.stdoutData ch => stepData ch st
  | Ev.timerFire t => stepTimer t st
  | Ev.procClose p => stepClose p st
  | Ev.shutdownCall => stepShutdown st

/-- Run a sequence of events, collecting all outputs in order. -/
def runEvs (tr : List Ev) (st : Bridge) : Bridge × List Out :=
  match tr with
  | [] => (st, [])
  | e :: rest =>
    ((runEvs rest (stepEv e st).1).1, (stepEv e st).2 ++ (runEvs rest (stepEv e st).1).2)

/-- `chat()`'s handling of a resolved response:
`if (response.data && response.data.response) return it; throw`. -/
def chatResult (resp : Json) : Except (List Char) Json :=
  match jsGet resp ("data".data) with
  | some d =>
    if jsTruthy d then
      match jsGet d ("response".data) with
      | some r => if jsTruthy r then Except.ok r else Except.error invalidChatMsg
      | none => Except.error invalidChatMsg
    else Except.error invalidChatMsg
  | none => Except.error invalidChatMsg

/-- `generateInitialGreeting()`'s handling of a resolved response; the
returned value is the `reply` field of the result object. -/
def greetingResult (resp : Json) : Except (List Char) Json :=
  match jsGet resp ("data".data) with
  | some d =>
    if jsTruthy d then
      match jsGet d ("response".data) with
      | some r => if jsTruthy r then Except.ok r else Except.error invalidGreetMsg
      | none => Except.error invalidGreetMsg
    else Except.error invalidGreetMsg
  | none => Except.error invalidGreetMsg

/-- A sample constructed service, used for concrete runs. -/
def sampleBridge : Bridge :=
  mkBridge "google".data "careers_cleaned.json".data "chroma_data_multilingual".data

/-! ## Fixture states and lines used by concrete runs -/

/-- A successful initialization response line, newline-terminated. -/
def okInitLine : List Char := "\x7b\"status\":\"success\"\x7d\n".data

/-- A failed initialization response line, newline-terminated. -/
def errInitLine : List Char := "\x7b\"status\":\"error\",\"message\":\"boom\"\x7d\n".data

/-- A `Ready` bridge: fresh service, one `initialize` call, one successful
initialization response. -/
def readySt : Bridge := (runEvs [Ev.initCall 0, Ev.stdoutData okInitLine] sampleBridge).1

/-- A sample chat command object. -/
def chatCmd : Json :=
  Json.obj [("command".data, Json.str "chat".data), ("message".data, Json.str "hello".data)]

/-- A `Ready` bridge with one outstanding `sendCommand` caller (id 1). -/
def busySt : Bridge := (runEvs [Ev.sendCall 1 chatCmd] readySt).1

/-! ## C7: malformed-line tolerance -/

/-- Claim C7: a line on the worker's output that fails to parse as JSON is
logged and dropped by `processResponseLine`: the bridge state — in
particular the pending queue — is left exactly as it was, no pending
caller is resolved or rejected, and the handler returns normally (the
`try/catch` swallows the parse error). -/
theorem C7_malformed_line_tolerance (st : Bridge) (line : List Char)
    (h : parseJson line = none) :
    processResponseLine line st = (st, [Out.parseFailed line]) := by
  unfold processResponseLine
  rw [h]

/-- Witness for C7 at the concrete non-JSON line `Loading model weights...`
on a bridge with one pending caller. -/
theorem C7_malformed_line_tolerance_witness :
    parseJson ("Loading model weights...".data) = none ∧
    processResponseLine ("Loading model weights...".data) busySt =
      (busySt, [Out.parseFailed ("Loading model weights...".data)]) :=
  ⟨rfl, C7_malformed_line_tolerance busySt ("Loading model weights...".data) rfl⟩

/-! ## C10: junk JSON still consumes the oldest pending request -/

/-- Claim C10: a line that parses as JSON but is not a well-formed protocol
response (for example an object with no `status` field) still pops the
oldest `PendingRequest` and resolves that caller with the junk value,
because only `status === 'error'` rejects; and only a JSON parse failure
leaves the pending queue untouched. -/
theorem C10_junk_response_resolves (st : Bridge) (line : List Char) (j : Json)
    (p : Pending) (rest : List Pending) (r : Nat)
    (hp : parseJson line = some j) (hq : st.pendingRequests = p :: rest)
    (hk : p.kind = ReqKind.callReq r) (hs : statusIsError j = false) :
    (processResponseLine line st).2 = [Out.resolved r j] ∧
    (processResponseLine line st).1.pendingRequests = rest ∧
    ∀ l2, parseJson l2 = none →
      (processResponseLine l2 st).1.pendingRequests = st.pendingRequests := by
  refine ⟨?_, ?_, ?_⟩
  · unfold processResponseLine
    rw [hp, hq]
    simp [hs, hk]
  · unfold processResponseLine
    rw [hp, hq]
    simp [hs, hk]
  · intro l2 h2
    unfold processResponseLine
    rw [h2]

/-- Witness for C10 at the junk line `{"foo":1}` on a bridge with one
pending caller. -/
theorem C10_junk_response_resolves_witness :
    parseJson ("\x7b\"foo\":1\x7d".data) = some (Json.obj [("foo".data, Json.num ['1'])]) ∧
    (processResponseLine ("\x7b\"foo\":1\x7d".data) busySt).2 =
      [Out.resolved 1 (Json.obj [("foo".data, Json.num ['1'])])] :=
  ⟨rfl,
    (C10_junk_response_resolves busySt ("\x7b\"foo\":1\x7d".data)
      (Json.obj [("foo".data, Json.num ['1'])])
      ⟨ReqKind.callReq 1, 1⟩ [] 1 rfl rfl rfl rfl).1⟩

/-! ## C9: empty or missing success payload throws -/

/-- Claim C9: for a worker reply whose `data` field is absent, or whose
`data.response` is the empty string, `chat()` and
`generateInitialGreeting()` do not return the reply text: the falsy check
`response.data && response.data.response` fails and they throw the
"Invalid ... response from RAG service" error. -/
theorem C9_empty_success_reply_throws (j : Json)
    (h : jsGet j ("data".data) = none ∨
      ∃ d, jsGet j ("data".data) = some d ∧ jsGet d ("response".data) = some (Json.str [])) :
    chatResult j = Except.error invalidChatMsg ∧
    greetingResult j = Except.error invalidGreetMsg := by
  rcases h with h | ⟨d, hd, hr⟩
  · constructor
    · unfold chatResult; rw [h]
    · unfold greetingResult; rw [h]
  · have htd : jsTruthy d = true := by
      cases d with
      | obj fs => rfl
      | null => simp [jsGet] at hr
      | bool b => simp [jsGet] at hr
      | num l => simp [jsGet] at hr
      | str s => simp [jsGet] at hr
      | arr xs => simp [jsGet] at hr
    constructor
    · unfold chatResult
      rw [hd]
      simp [htd, hr, jsTruthy, List.isEmpty]
    · unfold greetingResult
      rw [hd]
      simp [htd, hr, jsTruthy, List.isEmpty]

/-- Witness for C9 at the concrete reply
`{"status":"success","data":{"response":""}}`. -/
theorem C9_empty_success_reply_throws_witness :
    chatResult (Json.obj [("status".data, Json.str "success".data),
        ("data".data, Json.obj [("response".data, Json.str [])])]) =
      Except.error invalidChatMsg ∧
    greetingResult (Json.obj [("status".data, Json.str "success".data),
        ("data".data, Json.obj [("response".data, Json.str [])])]) =
      Except.error invalidGreetMsg :=
  C9_empty_success_reply_throws _
    (Or.inr ⟨Json.obj [("response".data, Json.str [])], rfl, rfl⟩)

/-! ## Helper lemmas about `rejectInitAttempt` and `drainPending` -/

/-- `rejectInitAttempt` touches only `unsettledInits` and `initFlight`. -/
theorem rejectInitAttempt_pres (a : Nat) (m : List Char) (st : Bridge) :
    (rejectInitAttempt a m st).1.pendingRequests = st.pendingRequests ∧
    (rejectInitAttempt a m st).1.armedTimers = st.armedTimers ∧
    (rejectInitAttempt a m st).1.pythonProcess = st.pythonProcess ∧
    (rejectInitAttempt a m st).1.isInitialized = st.isInitialized ∧
    (rejectInitAttempt a m st).1.alive = st.alive ∧
    (rejectInitAttempt a m st).1.outputBuffer = st.outputBuffer ∧
    (rejectInitAttempt a m st).1.nextPid = st.nextPid := by
  unfold rejectInitAttempt
  split <;> exact ⟨rfl, rfl, rfl, rfl, rfl, rfl, rfl⟩

/-- `rejectInitAttempt` never re-establishes an in-flight promise. -/
theorem rejectInitAttempt_flight_none (a : Nat) (m : List Char) (st : Bridge)
    (h : st.initFlight = none) : (rejectInitAttempt a m st).1.initFlight = none := by
  unfold rejectInitAttempt
  split
  · rfl
  · exact h

/-- Drained requests leave every bridge field untouched except the armed
timers, `unsettledInits` and `initFlight`. -/
theorem drainPending_pres (msg : List Char) (ps : List Pending) : ∀ st : Bridge,
    (drainPending msg ps st).1.pendingRequests = st.pendingRequests ∧
    (drainPending msg ps st).1.pythonProcess = st.pythonProcess ∧
    (drainPending msg ps st).1.isInitialized = st.isInitialized ∧
    (drainPending msg ps st).1.alive = st.alive ∧
    (drainPending msg ps st).1.outputBuffer = st.outputBuffer ∧
    (drainPending msg ps st).1.nextPid = st.nextPid := by
  induction ps with
  | nil => intro st; exact ⟨rfl, rfl, rfl, rfl, rfl, rfl⟩
  | cons q rest ih =>
    intro st
    cases hk : q.kind with
    | callReq r =>
      simp only [drainPending, hk]
      simpa using ih _
    | initReq a =>
      simp only [drainPending, hk]
      have hp := rejectInitAttempt_pres a msg
        { st with armedTimers := clearTimer q.timerId st.armedTimers }
      have hi := ih (rejectInitAttempt a msg
        { st with armedTimers := clearTimer q.timerId st.armedTimers }).1
      refine ⟨?_, ?_, ?_, ?_, ?_, ?_⟩ <;> simp_all

/-- `drainPending` preserves a null `initializationPromise`. -/
theorem drainPending_flight_none (msg : List Char) (ps : List Pending) : ∀ st : Bridge,
    st.initFlight = none → (drainPending msg ps st).1.initFlight = none := by
  induction ps with
  | nil => intro st h; exact h
  | cons q rest ih =>
    intro st h
    cases hk : q.kind with
    | callReq r =>
      simp only [drainPending, hk]
      exact ih _ h
    | initReq a =>
      simp only [drainPending, hk]
      exact ih _ (rejectInitAttempt_flight_none a msg _ h)

/-- Every armed timer surviving a drain was armed before it. -/
theorem drainPending_armed_subset (msg : List Char) (ps : List Pending) : ∀ (st : Bridge)
    (tc : Nat × TimerCb), tc ∈ (drainPending msg ps st).1.armedTimers → tc ∈ st.armedTimers := by
  induction ps with
  | nil => intro st tc h; exact h
  | cons q rest ih =>
    intro st tc h
    cases hk : q.kind with
    | callReq r =>
      simp only [drainPending, hk] at h
      have := ih _ _ h
      simp only [clearTimer, List.mem_filter] at this
      exact this.1
    | initReq a =>
      simp only [drainPending, hk] at h
      have h2 := ih _ _ h
      have hp := (rejectInitAttempt_pres a msg
        { st with armedTimers := clearTimer q.timerId st.armedTimers }).2.1
      rw [hp] at h2
      simp only [clearTimer, List.mem_filter] at h2
      exact h2.1

/-- `lookupTimer` misses when no armed entry carries the handle. -/
theorem lookupTimer_eq_none (t : Nat) (l : List (Nat × TimerCb))
    (h : ∀ tc ∈ l, tc.1 ≠ t) : lookupTimer t l = none := by
  unfold lookupTimer
  rw [List.find?_eq_none.mpr]
  intro tc htc
  simpa using h tc htc

/-- A drained request's timeout handle is no longer armed afterwards
(`clearTimeout` ran for it). -/
theorem drainPending_clears (msg : List Char) (ps : List Pending) : ∀ (st : Bridge)
    (p : Pending), p ∈ ps →
    lookupTimer p.timerId (drainPending msg ps st).1.armedTimers = none := by
  induction ps with
  | nil => intro st p h; exact absurd h (List.not_mem_nil p)
  | cons q rest ih =>
    intro st p hmem
    rcases List.mem_cons.mp hmem with heq | htail
    · subst heq
      apply lookupTimer_eq_none
      intro tc htc
      have hsub := drainPending_armed_subset msg (p :: rest) st tc htc
      cases hk : p.kind with
      | callReq r =>
        have : tc ∈ (drainPending msg (p :: rest) st).1.armedTimers := htc
        simp only [drainPending, hk] at this
        have h2 := drainPending_armed_subset msg rest _ _ this
        simp only [clearTimer, List.mem_filter] at h2
        simpa using h2.2
      | initReq a =>
        have : tc ∈ (drainPending msg (p :: rest) st).1.armedTimers := htc
        simp only [drainPending, hk] at this
        have h2 := drainPending_armed_subset msg rest _ _ this
        have hp := (rejectInitAttempt_pres a msg
          { st with armedTimers := clearTimer p.timerId st.armedTimers }).2.1
        rw [hp] at h2
        simp only [clearTimer, List.mem_filter] at h2
        simpa using h2.2
    · cases hk : q.kind with
      | callReq r =>
        simp only [drainPending, hk]
        exact ih _ _ htail
      | initReq a =>
        simp only [drainPending, hk]
        exact ih _ _ htail

/-- Every drained caller request is rejected with the drain's message. -/
theorem drainPending_rejects (msg : List Char) (ps : List Pending) : ∀ (st : Bridge)
    (p : Pending) (r : Nat), p ∈ ps → p.kind = ReqKind.callReq r →
    Out.rejected r msg ∈ (drainPending msg ps st).2 := by
  induction ps with
  | nil => intro st p r h _; exact absurd h (List.not_mem_nil p)
  | cons q rest ih =>
    intro st p r hmem hk
    rcases List.mem_cons.mp hmem with heq | htail
    · subst heq
      simp only [drainPending, hk]
      simp
    · cases hq : q.kind with
      | callReq r2 =>
        simp only [drainPending, hq, List.mem_append]
        exact Or.inr (ih _ _ _ htail hk)
      | initReq a =>
        simp only [drainPending, hq, List.mem_append]
        exact Or.inr (ih _ _ _ htail hk)

/-- On a bridge that is neither initialized nor mid-initialization, an
`initialize()` call takes the fresh branch: it spawns one process and
writes one `initialize` command. -/
theorem stepInitCall_fresh (k : Nat) (st : Bridge) (h1 : st.isInitialized = false)
    (h2 : st.initFlight = none) :
    (stepEv (Ev.initCall k) st).2 = [Out.spawned st.nextPid] ∧
    (stepEv (Ev.initCall k) st).1.spawnCount = st.spawnCount + 1 ∧
    (stepEv (Ev.initCall k) st).1.stdinLog = st.stdinLog ++ [initCmdJson st] := by
  simp [stepEv, stepInitCall, h1, h2]

/-! ## C6: crash propagation -/

/-- Claim C6: when the worker process exits while requests are pending, the
`close` handler rejects every pending caller with the "terminated
unexpectedly" error, cancels every pending timeout, and resets the bridge
(null process handle, not initialized, no in-flight initialization, empty
queue), so that a subsequent call takes the fresh-spawn branch of
`initialize()`. -/
theorem C6_crash_propagation (st : Bridge) (pid k : Nat) (hpid : pid ∈ st.alive) :
    (stepEv (Ev.procClose pid) st).1.pendingRequests = [] ∧
    (stepEv (Ev.procClose pid) st).1.pythonProcess = none ∧
    (stepEv (Ev.procClose pid) st).1.isInitialized = false ∧
    (stepEv (Ev.procClose pid) st).1.initFlight = none ∧
    (∀ p (r : Nat), p ∈ st.pendingRequests → p.kind = ReqKind.callReq r →
      Out.rejected r termMsg ∈ (stepEv (Ev.procClose pid) st).2) ∧
    (∀ p ∈ st.pendingRequests,
      lookupTimer p.timerId (stepEv (Ev.procClose pid) st).1.armedTimers = none) ∧
    (stepEv (Ev.initCall k) (stepEv (Ev.procClose pid) st).1).2 =
      [Out.spawned (stepEv (Ev.procClose pid) st).1.nextPid] := by
  have hstep : stepEv (Ev.procClose pid) st =
      drainPending termMsg st.pendingRequests
        { st with alive := st.alive.erase pid, isInitialized := false,
                  pythonProcess := none, initFlight := none, pendingRequests := [] } := by
    simp [stepEv, stepClose, hpid]
  rw [hstep]
  have hp := drainPending_pres termMsg st.pendingRequests
    { st with alive := st.alive.erase pid, isInitialized := false,
              pythonProcess := none, initFlight := none, pendingRequests := [] }
  have hf := drainPending_flight_none termMsg st.pendingRequests
    { st with alive := st.alive.erase pid, isInitialized := false,
              pythonProcess := none, initFlight := none, pendingRequests := [] } rfl
  refine ⟨by simp_all, by simp_all, by simp_all, hf, ?_, ?_, ?_⟩
  · intro p r hmem hk
    exact drainPending_rejects termMsg st.pendingRequests _ p r hmem hk
  · intro p hmem
    exact drainPending_clears termMsg st.pendingRequests _ p hmem
  · have h1 : (drainPending termMsg st.pendingRequests
        { st with alive := st.alive.erase pid, isInitialized := false,
                  pythonProcess := none, initFlight := none,
                  pendingRequests := [] }).1.isInitialized = false := by simp_all
    exact (stepInitCall_fresh k _ h1 hf).1

/-- Witness for C6: crash a `Ready` bridge (worker pid 0) holding one
pending caller. -/
theorem C6_crash_propagation_witness :
    0 ∈ busySt.alive ∧
    ((stepEv (Ev.procClose 0) busySt).1.pendingRequests = [] ∧
     (stepEv (Ev.procClose 0) busySt).1.pythonProcess = none ∧
     (stepEv (Ev.procClose 0) busySt).1.isInitialized = false ∧
     (stepEv (Ev.procClose 0) busySt).1.initFlight = none ∧
     (∀ p (r : Nat), p ∈ busySt.pendingRequests → p.kind = ReqKind.callReq r →
       Out.rejected r termMsg ∈ (stepEv (Ev.procClose 0) busySt).2) ∧
     (∀ p ∈ busySt.pendingRequests,
       lookupTimer p.timerId (stepEv (Ev.procClose 0) busySt).1.armedTimers = none) ∧
     (stepEv (Ev.initCall 7) (stepEv (Ev.procClose 0) busySt).1).2 =
       [Out.spawned (stepEv (Ev.procClose 0) busySt).1.nextPid]) :=
  ⟨by decide, C6_crash_propagation busySt 0 7 (by decide)⟩

/-! ## C8: idempotent shutdown -/

/-- Claim C8: `shutdown()` on a bridge holding a process handle kills the
process, rejects every pending caller with the "shutting down" error and
resets the bridge; a second `shutdown()` is a no-op (total, so it does not
throw), and after the shutdowns an `initialize()` call re-initializes via
the fresh-spawn branch. -/
theorem C8_idempotent_shutdown (st : Bridge) (pid k : Nat)
    (hp : st.pythonProcess = some pid) :
    Out.killed pid ∈ (stepEv Ev.shutdownCall st).2 ∧
    (∀ p (r : Nat), p ∈ st.pendingRequests → p.kind = ReqKind.callReq r →
      Out.rejected r shutMsg ∈ (stepEv Ev.shutdownCall st).2) ∧
    (stepEv Ev.shutdownCall st).1.pythonProcess = none ∧
    (stepEv Ev.shutdownCall st).1.isInitialized = false ∧
    (stepEv Ev.shutdownCall st).1.initFlight = none ∧
    (stepEv Ev.shutdownCall st).1.pendingRequests = [] ∧
    stepEv Ev.shutdownCall (stepEv Ev.shutdownCall st).1 =
      ((stepEv Ev.shutdownCall st).1, []) ∧
    (stepEv (Ev.initCall k) (stepEv Ev.shutdownCall st).1).2 =
      [Out.spawned (stepEv Ev.shutdownCall st).1.nextPid] := by
  have hstep : stepEv Ev.shutdownCall st =
      ((drainPending shutMsg st.pendingRequests
          { st with alive := st.alive.erase pid, pythonProcess := none,
                    isInitialized := false, initFlight := none,
                    pendingRequests := [] }).1,
        Out.killed pid :: (drainPending shutMsg st.pendingRequests
          { st with alive := st.alive.erase pid, pythonProcess := none,
                    isInitialized := false, initFlight := none,
                    pendingRequests := [] }).2) := by
    simp [stepEv, stepShutdown, hp]
  rw [hstep]
  have hpres := drainPending_pres shutMsg st.pendingRequests
    { st with alive := st.alive.erase pid, pythonProcess := none,
              isInitialized := false, initFlight := none, pendingRequests := [] }
  have hf := drainPending_flight_none shutMsg st.pendingRequests
    { st with alive := st.alive.erase pid, pythonProcess := none,
              isInitialized := false, initFlight := none, pendingRequests := [] } rfl
  have hproc : (drainPending shutMsg st.pendingRequests
      { st with alive := st.alive.erase pid, pythonProcess := none,
                isInitialized := false, initFlight := none,
                pendingRequests := [] }).1.pythonProcess = none := by simp_all
  have hinit : (drainPending shutMsg st.pendingRequests
      { st with alive := st.alive.erase pid, pythonProcess := none,
                isInitialized := false, initFlight := none,
                pendingRequests := [] }).1.isInitialized = false := by simp_all
  refine ⟨by simp, ?_, hproc, hinit, hf, by simp_all, ?_, ?_⟩
  · intro p r hmem hk
    simp only [List.mem_cons]
    exact Or.inr (drainPending_rejects shutMsg st.pendingRequests _ p r hmem hk)
  · simp [stepEv, stepShutdown, hproc]
  · exact (stepInitCall_fresh k _ hinit hf).1

/-- Witness for C8: shut down a `Ready` bridge (worker pid 0) holding one
pending caller. -/
theorem C8_idempotent_shutdown_witness :
    busySt.pythonProcess = some 0 ∧
    (Out.killed 0 ∈ (stepEv Ev.shutdownCall busySt).2 ∧
     (∀ p (r : Nat), p ∈ busySt.pendingRequests → p.kind = ReqKind.callReq r →
       Out.rejected r shutMsg ∈ (stepEv Ev.shutdownCall busySt).2) ∧
     (stepEv Ev.shutdownCall busySt).1.pythonProcess = none ∧
     (stepEv Ev.shutdownCall busySt).1.isInitialized = false ∧
     (stepEv Ev.shutdownCall busySt).1.initFlight = none ∧
     (stepEv Ev.shutdownCall busySt).1.pendingRequests = [] ∧
     stepEv Ev.shutdownCall (stepEv Ev.shutdownCall busySt).1 =
       ((stepEv Ev.shutdownCall busySt).1, []) ∧
     (stepEv (Ev.initCall 5) (stepEv Ev.shutdownCall busySt).1).2 =
       [Out.spawned (stepEv Ev.shutdownCall busySt).1.nextPid]) :=
  ⟨by decide, C8_idempotent_shutdown busySt 0 5 (by decide)⟩

/-! ## C2: single-flight initialization -/

/-- While an initialization attempt `a` is in flight and the bridge is not
initialized, further `initialize()` calls only join the existing attempt:
no spawn, no write, no new promise — each caller is just recorded as a
waiter on attempt `a`. -/
theorem joinRun_aux (ks : List Nat) : ∀ (st : Bridge) (a : Nat),
    st.isInitialized = false → st.initFlight = some a →
    (runEvs (ks.map Ev.initCall) st).1 =
      { st with initWaiters := (ks.reverse.map fun k => (k, a)) ++ st.initWaiters } ∧
    (runEvs (ks.map Ev.initCall) st).2 = [] := by
  induction ks with
  | nil =>
    intro st a h1 h2
    exact ⟨rfl, rfl⟩
  | cons k ks ih =>
    intro st a h1 h2
    have hstep : stepEv (Ev.initCall k) st =
        ({ st with initWaiters := (k, a) :: st.initWaiters }, []) := by
      simp [stepEv, stepInitCall, h1, h2]
    simp only [List.map_cons, runEvs, hstep]
    have hi := ih { st with initWaiters := (k, a) :: st.initWaiters } a h1 h2
    rw [hi.1, hi.2]
    constructor
    · simp
    · rfl

/-- Claim C2: for any positive number of concurrent callers `k0 :: ks` that
all invoke `initialize()` before any response arrives, exactly one worker
spawn occurs, exactly one line — the `initialize` command — is written to
the worker, there is a single in-flight attempt (number 0, still
unsettled, so it resolves at most once), and every caller awaits that same
attempt 0 — hence all observe the one outcome its promise settles with. -/
theorem C2_single_flight (pr cj cp : List Char) (k0 : Nat) (ks : List Nat) :
    (runEvs ((k0 :: ks).map Ev.initCall) (mkBridge pr cj cp)).1.spawnCount = 1 ∧
    (runEvs ((k0 :: ks).map Ev.initCall) (mkBridge pr cj cp)).1.stdinLog =
      [initCmdJson (mkBridge pr cj cp)] ∧
    (runEvs ((k0 :: ks).map Ev.initCall) (mkBridge pr cj cp)).2 = [Out.spawned 0] ∧
    (runEvs ((k0 :: ks).map Ev.initCall) (mkBridge pr cj cp)).1.initFlight = some 0 ∧
    (runEvs ((k0 :: ks).map Ev.initCall) (mkBridge pr cj cp)).1.unsettledInits = [0] ∧
    ∀ k ∈ k0 :: ks,
      (k, 0) ∈ (runEvs ((k0 :: ks).map Ev.initCall) (mkBridge pr cj cp)).1.initWaiters := by
  have h1 : stepEv (Ev.initCall k0) (mkBridge pr cj cp) =
      ({ provider := pr, careersJsonPath := cj, chromaPersistDir := cp,
         pythonProcess := some 0, isInitialized := false, initFlight := some 0,
         pendingRequests := [⟨ReqKind.initReq 0, 0⟩], outputBuffer := [],
         armedTimers := [(0, TimerCb.initTimeout 0)], unsettledInits := [0],
         initWaiters := [(k0, 0)], alive := [0], nextPid := 1, nextTimer := 1,
         nextAttempt := 1, spawnCount := 1,
         stdinLog := [initCmdJson (mkBridge pr cj cp)] },
       [Out.spawned 0]) := rfl
  simp only [List.map_cons, runEvs, h1]
  have hi := joinRun_aux ks
      { provider := pr, careersJsonPath := cj, chromaPersistDir := cp,
        pythonProcess := some 0, isInitialized := false, initFlight := some 0,
        pendingRequests := [⟨ReqKind.initReq 0, 0⟩], outputBuffer := [],
        armedTimers := [(0, TimerCb.initTimeout 0)], unsettledInits := [0],
        initWaiters := [(k0, 0)], alive := [0], nextPid := 1, nextTimer := 1,
        nextAttempt := 1, spawnCount := 1,
        stdinLog := [initCmdJson (mkBridge pr cj cp)] } 0 rfl rfl
  rw [hi.1, hi.2]
  refine ⟨rfl, rfl, rfl, rfl, rfl, ?_⟩
  intro k hk
  rcases List.mem_cons.mp hk with heq | htail
  · subst heq
    simp
  · simp only [List.mem_append, List.mem_map, List.mem_reverse]
    exact Or.inl ⟨k, htail, rfl⟩

/-! ## C4: per-call timeout and the late-response misroute -/

/-- The worker's (late) response to the first call. -/
def r1line : List Char :=
  "\x7b\"status\":\"success\",\"data\":\x7b\"response\":\"one\"\x7d\x7d\n".data

/-- The worker's response to the second call. -/
def r2line : List Char :=
  "\x7b\"status\":\"success\",\"data\":\x7b\"response\":\"two\"\x7d\x7d\n".data

/-- The parsed payload of `r1line`. -/
def r1Payload : Json :=
  Json.obj [("status".data, Json.str "success".data),
    ("data".data, Json.obj [("response".data, Json.str "one".data)])]

/-- The C4 scenario on a `Ready` bridge: send calls 1 and 2, fire call 1's
30s timer (handle 1), then the worker's two responses arrive in order. -/
def lateRespTrace : List Ev :=
  [Ev.sendCall 1 chatCmd, Ev.sendCall 2 chatCmd, Ev.timerFire 1,
   Ev.stdoutData r1line, Ev.stdoutData r2line]

/-- Claim C4 fails on the code: after C1's timeout fires, its queue slot
alone is removed and C1 is rejected with the timeout error — but when C1's
late response R1 then arrives, the FIFO shift hands R1's payload to C2,
and C2's own response R2 finds an empty queue and is dropped with a
warning.  C2 does not resolve with its own response's payload. -/
theorem C4_late_response_misroute :
    (runEvs lateRespTrace readySt).2 =
      [Out.rejected 1 reqTimeoutMsg, Out.resolved 2 r1Payload, Out.warnNoPending] := by
  rfl

/-! ## C5: the at-most-one-worker invariant -/

/-- Counterexample to claim C5: from a fresh bridge, let initialization
fail via an error-status response (the worker reported failure but did not
exit, and the bridge does not kill it), then let a new call retry
initialization.  The retry spawns worker 1 while worker 0 is still alive:
two live worker processes owned by one bridge instance. -/
theorem C5_two_live_workers_cex :
    (runEvs [Ev.initCall 0, Ev.stdoutData errInitLine, Ev.initCall 1]
        sampleBridge).1.alive = [1, 0] ∧
    (runEvs [Ev.initCall 0, Ev.stdoutData errInitLine, Ev.initCall 1]
        sampleBridge).1.alive.length = 2 := by
  exact ⟨rfl, rfl⟩

/-- `rejectInitAttempt` leaves `alive` untouched. -/
theorem rejectInitAttempt_alive (a : Nat) (m : List Char) (st : Bridge) :
    (rejectInitAttempt a m st).1.alive = st.alive :=
  (rejectInitAttempt_pres a m st).2.2.2.2.1

/-- `rejectInitAttempt` leaves the process handle untouched. -/
theorem rejectInitAttempt_proc (a : Nat) (m : List Char) (st : Bridge) :
    (rejectInitAttempt a m st).1.pythonProcess = st.pythonProcess :=
  (rejectInitAttempt_pres a m st).2.2.1

/-- `resolveInitAttempt` leaves `alive` untouched. -/
theorem resolveInitAttempt_alive (a : Nat) (resp : Json) (st : Bridge) :
    (resolveInitAttempt a resp st).1.alive = st.alive := by
  unfold resolveInitAttempt
  split
  · dsimp only
    split <;> rfl
  · exact rejectInitAttempt_alive _ _ _

/-- `resolveInitAttempt` leaves the process handle untouched. -/
theorem resolveInitAttempt_proc (a : Nat) (resp : Json) (st : Bridge) :
    (resolveInitAttempt a resp st).1.pythonProcess = st.pythonProcess := by
  unfold resolveInitAttempt
  split
  · dsimp only
    split <;> rfl
  · exact rejectInitAttempt_proc _ _ _

/-- Response-line processing never spawns or reaps a process. -/
theorem processResponseLine_pres (line : List Char) (st : Bridge) :
    (processResponseLine line st).1.alive = st.alive ∧
    (processResponseLine line st).1.pythonProcess = st.pythonProcess := by
  unfold processResponseLine
  cases hp : parseJson line with
  | none => exact ⟨rfl, rfl⟩
  | some resp =>
    cases hq : st.pendingRequests with
    | nil => exact ⟨rfl, rfl⟩
    | cons p rest =>
      cases hk : p.kind with
      | callReq r =>
        by_cases hs : statusIsError resp = true <;> simp [hk, hs]
      | initReq a =>
        by_cases hs : statusIsError resp = true <;>
          simp [hk, hs, rejectInitAttempt_alive, rejectInitAttempt_proc,
            resolveInitAttempt_alive, resolveInitAttempt_proc]

/-- The line loop never spawns or reaps a process. -/
theorem processLines_pres (ls : List (List Char)) : ∀ st : Bridge,
    (processLines ls st).1.alive = st.alive ∧
    (processLines ls st).1.pythonProcess = st.pythonProcess := by
  induction ls with
  | nil => intro st; exact ⟨rfl, rfl⟩
  | cons l rest ih =>
    intro st
    unfold processLines
    by_cases ht : jsTrim l = []
    · simp only [ht, if_pos]
      simpa using ih st
    · simp only [ht, if_neg, ite_false]
      have h1 := processResponseLine_pres (jsTrim l) st
      have h2 := ih (processResponseLine (jsTrim l) st).1
      exact ⟨h2.1.trans h1.1, h2.2.trans h1.2⟩

/-- The stdout data handler never spawns or reaps a process. -/
theorem stepData_pres (ch : List Char) (st : Bridge) :
    (stepData ch st).1.alive = st.alive ∧
    (stepData ch st).1.pythonProcess = st.pythonProcess := by
  unfold stepData
  have := processLines_pres (splitNl (st.outputBuffer ++ ch)).dropLast
    { st with outputBuffer := ((splitNl (st.outputBuffer ++ ch)).getLast?).getD [] }
  simpa using this

/-- Timer callbacks never spawn or reap a process. -/
theorem stepTimer_pres (t : Nat) (st : Bridge) :
    (stepTimer t st).1.alive = st.alive ∧
    (stepTimer t st).1.pythonProcess = st.pythonProcess := by
  unfold stepTimer
  cases lookupTimer t st.armedTimers with
  | none => exact ⟨rfl, rfl⟩
  | some cb =>
    cases cb with
    | callTimeout r => exact ⟨rfl, rfl⟩
    | initTimeout a =>
      exact ⟨rejectInitAttempt_alive _ _ _, rejectInitAttempt_proc _ _ _⟩

/-- The amended single-worker invariant: the live processes of the bridge
are exactly the one referenced by its handle (or none). -/
def singleWorkerInv (st : Bridge) : Prop :=
  (st.pythonProcess = none ∧ st.alive = []) ∨
  ∃ pid, st.pythonProcess = some pid ∧ st.alive = [pid]

/-- A preserved pair of fields transports the invariant. -/
theorem singleWorkerInv_of_eq (st st' : Bridge) (h1 : st'.alive = st.alive)
    (h2 : st'.pythonProcess = st.pythonProcess) (h : singleWorkerInv st) :
    singleWorkerInv st' := by
  unfold singleWorkerInv at h ⊢
  rw [h1, h2]
  exact h

/-- Does the next `initialize()` call take the fresh-spawn branch here? -/
def freshSpawnBranch (st : Bridge) : Bool :=
  !(st.isInitialized && st.pythonProcess.isSome) && st.initFlight.isNone

/-- Trace discipline of the amendment: an `initialize()` call may take the
fresh-spawn branch only once no previously spawned worker is alive — that
is, after an initialization failure or timeout the failed attempt's worker
exits (its `close` fires) before any call retries initialization. -/
def spawnGuarded : Bridge → List Ev → Bool
  | _, [] => true
  | st, e :: tr =>
    (match e with
     | Ev.initCall _ => !(freshSpawnBranch st) || st.alive.isEmpty
     | _ => true) && spawnGuarded (stepEv e st).1 tr

/-- Along any spawn-guarded trace the single-worker invariant is
preserved. -/
theorem spawnGuarded_inv (tr : List Ev) : ∀ st : Bridge,
    singleWorkerInv st → spawnGuarded st tr = true →
    singleWorkerInv (runEvs tr st).1 := by
  induction tr with
  | nil => intro st h _; exact h
  | cons e rest ih =>
    intro st hInv hg
    have hg2 : spawnGuarded (stepEv e st).1 rest = true := by
      unfold spawnGuarded at hg
      rw [Bool.and_eq_true] at hg
      exact hg.2
    have hstep : singleWorkerInv (stepEv e st).1 := by
      cases e with
      | initCall k =>
        have hg1 : (!(freshSpawnBranch st) || st.alive.isEmpty) = true := by
          unfold spawnGuarded at hg
          rw [Bool.and_eq_true] at hg
          exact hg.1
        by_cases hc : (st.isInitialized = true ∧ st.pythonProcess.isSome = true)
        · have : stepEv (Ev.initCall k) st = (st, [Out.initImmediate k]) := by
            simp [stepEv, stepInitCall, hc.1, hc.2]
          rw [this]
          exact hInv
        · cases hf : st.initFlight with
          | some a =>
            have : stepEv (Ev.initCall k) st =
                ({ st with initWaiters := (k, a) :: st.initWaiters }, []) := by
              simp only [stepEv, stepInitCall, hf]
              rw [if_neg]
              intro hand
              exact hc ⟨hand.1, by simpa using hand.2⟩
            rw [this]
            exact singleWorkerInv_of_eq st _ rfl rfl hInv
          | none =>
            have hfresh : freshSpawnBranch st = true := by
              unfold freshSpawnBranch
              rw [hf]
              simp only [Option.isNone_none, Bool.and_true, Bool.not_eq_true']
              by_contra hb
              rw [Bool.not_eq_false, Bool.and_eq_true] at hb
              exact hc ⟨hb.1, by simpa using hb.2⟩
            have halive : st.alive = [] := by
              rw [Bool.or_eq_true] at hg1
              rcases hg1 with h | h
              · rw [hfresh] at h
                simp at h
              · simpa using h
            have : stepEv (Ev.initCall k) st =
                ({ st with
                    pythonProcess := some st.nextPid, alive := st.nextPid :: st.alive,
                    nextPid := st.nextPid + 1, spawnCount := st.spawnCount + 1,
                    armedTimers := (st.nextTimer, TimerCb.initTimeout st.nextAttempt) ::
                      st.armedTimers,
                    nextTimer := st.nextTimer + 1,
                    pendingRequests := st.pendingRequests ++
                      [⟨ReqKind.initReq st.nextAttempt, st.nextTimer⟩],
                    stdinLog := st.stdinLog ++ [initCmdJson st],
                    initFlight := some st.nextAttempt,
                    unsettledInits := st.nextAttempt :: st.unsettledInits,
                    nextAttempt := st.nextAttempt + 1,
                    initWaiters := (k, st.nextAttempt) :: st.initWaiters },
                  [Out.spawned st.nextPid]) := by
              simp only [stepEv, stepInitCall, hf]
              rw [if_neg]
              intro hand
              exact hc ⟨hand.1, by simpa using hand.2⟩
            rw [this]
            exact Or.inr ⟨st.nextPid, rfl, by rw [halive]⟩
      | sendCall r c =>
        by_cases hc : (st.isInitialized = true ∧ st.pythonProcess.isSome = true)
        · have : (stepEv (Ev.sendCall r c) st).1 =
              { st with
                  armedTimers := (st.nextTimer, TimerCb.callTimeout r) :: st.armedTimers,
                  nextTimer := st.nextTimer + 1,
                  pendingRequests := st.pendingRequests ++
                    [⟨ReqKind.callReq r, st.nextTimer⟩],
                  stdinLog := st.stdinLog ++ [c] } := by
            simp [stepEv, stepSendCall, hc.1, hc.2]
          rw [this]
          exact singleWorkerInv_of_eq st _ rfl rfl hInv
        · have : (stepEv (Ev.sendCall r c) st).1 = st := by
            simp only [stepEv, stepSendCall]
            rw [if_neg]
            intro hand
            exact hc ⟨hand.1, by simpa using hand.2⟩
          rw [this]
          exact hInv
      | stdoutData ch =>
        exact singleWorkerInv_of_eq st _ (stepData_pres ch st).1 (stepData_pres ch st).2 hInv
      | timerFire t =>
        exact singleWorkerInv_of_eq st _ (stepTimer_pres t st).1 (stepTimer_pres t st).2 hInv
      | procClose pid =>
        by_cases hm : pid ∈ st.alive
        · rcases hInv with ⟨hpn, han⟩ | ⟨pid0, hps, has⟩
          · rw [han] at hm
            exact absurd hm (List.not_mem_nil pid)
          · have hpid : pid = pid0 := by
              rw [has] at hm
              simpa using hm
            subst hpid
            have hstep2 : stepEv (Ev.procClose pid) st =
                drainPending termMsg st.pendingRequests
                  { st with alive := st.alive.erase pid, isInitialized := false,
                            pythonProcess := none, initFlight := none,
                            pendingRequests := [] } := by
              simp [stepEv, stepClose, hm]
            rw [hstep2]
            have hp := drainPending_pres termMsg st.pendingRequests
              { st with alive := st.alive.erase pid, isInitialized := false,
                        pythonProcess := none, initFlight := none,
                        pendingRequests := [] }
            refine Or.inl ⟨hp.2.1.trans rfl, hp.2.2.2.1.trans ?_⟩
            show st.alive.erase pid = []
            rw [has]
            simp
        · have : stepEv (Ev.procClose pid) st = (st, []) := by
            simp [stepEv, stepClose, hm]
          rw [this]
          exact hInv
      | shutdownCall =>
        rcases hInv with ⟨hpn, han⟩ | ⟨pid0, hps, has⟩
        · have : stepEv Ev.shutdownCall st = (st, []) := by
            simp [stepEv, stepShutdown, hpn]
          rw [this]
          exact Or.inl ⟨hpn, han⟩
        · have hstep2 : (stepEv Ev.shutdownCall st).1 =
              (drainPending shutMsg st.pendingRequests
                { st with alive := st.alive.erase pid0, pythonProcess := none,
                          isInitialized := false, initFlight := none,
                          pendingRequests := [] }).1 := by
            simp [stepEv, stepShutdown, hps]
          rw [hstep2]
          have hp := drainPending_pres shutMsg st.pendingRequests
            { st with alive := st.alive.erase pid0, pythonProcess := none,
                      isInitialized := false, initFlight := none,
                      pendingRequests := [] }
          refine Or.inl ⟨hp.2.1.trans rfl, hp.2.2.2.1.trans ?_⟩
          show st.alive.erase pid0 = []
          rw [has]
          simp
    exact ih _ hstep hg2

/-- Claim C5, amended as the counterexample forces: at every reachable
state of a bridge, at most one worker process spawned by that instance is
running, PROVIDED the trace is spawn-guarded — i.e. after an
initialization failure or timeout the failed attempt's worker exits before
any call retries initialization.  Without that proviso the retry spawns a
second worker while the first may still be running
(`C5_two_live_workers_cex`); the code neither kills the old worker on
initialization failure/timeout nor checks for it when respawning. -/
theorem C5_at_most_one_worker_guarded (pr cj cp : List Char) (tr : List Ev)
    (h : spawnGuarded (mkBridge pr cj cp) tr = true) :
    (runEvs tr (mkBridge pr cj cp)).1.alive.length ≤ 1 := by
  have hInv := spawnGuarded_inv tr (mkBridge pr cj cp) (Or.inl ⟨rfl, rfl⟩) h
  rcases hInv with ⟨_, ha⟩ | ⟨pid, _, ha⟩ <;> simp [ha]

/-- Witness for the amended C5: a failure-then-retry trace in which the
failed worker exits before the retry is spawn-guarded and keeps at most
one live worker. -/
theorem C5_at_most_one_worker_guarded_witness :
    spawnGuarded (mkBridge "google".data "careers_cleaned.json".data
        "chroma_data_multilingual".data)
      [Ev.initCall 0, Ev.stdoutData errInitLine, Ev.procClose 0, Ev.initCall 1] = true ∧
    (runEvs [Ev.initCall 0, Ev.stdoutData errInitLine, Ev.procClose 0, Ev.initCall 1]
        (mkBridge "google".data "careers_cleaned.json".data
          "chroma_data_multilingual".data)).1.alive.length ≤ 1 :=
  ⟨rfl,
    C5_at_most_one_worker_guarded "google".data "careers_cleaned.json".data
      "chroma_data_multilingual".data
      [Ev.initCall 0, Ev.stdoutData errInitLine, Ev.procClose 0, Ev.initCall 1] rfl⟩

/-! ## C1: FIFO correlation -/

/-- Caller ids of the queued `sendCommand` requests, in queue order. -/
def pendRids (ps : List Pending) : List Nat :=
  ps.filterMap fun p => match p.kind with
    | ReqKind.callReq r => some r
    | ReqKind.initReq _ => none

/-- All queued requests are plain `sendCommand` requests. -/
def allCallReq (ps : List Pending) : Bool :=
  ps.all fun p => match p.kind with
    | ReqKind.callReq _ => true
    | ReqKind.initReq _ => false

/-- Caller ids of the `sendCommand` events of a trace, in trace order. -/
def sendRids (tr : List Ev) : List Nat :=
  tr.filterMap fun e => match e with
    | Ev.sendCall r _ => some r
    | _ => none

/-- Parsed payloads of the response-line chunks of a trace, in order. -/
def linePayloads (tr : List Ev) : List Json :=
  tr.filterMap fun e => match e with
    | Ev.stdoutData ch => some ((parseJson (jsTrim ch.dropLast)).getD Json.null)
    | _ => none

/-- A chunk carrying exactly one complete response line: it ends in the
newline, contains no earlier newline, and its line trims non-blank and
parses to a non-error response. -/
def goodChunk (ch : List Char) : Bool :=
  decide (ch.getLast? = some '\n') && !(decide ('\n' ∈ ch.dropLast)) &&
  !(decide (jsTrim ch.dropLast = [])) &&
  (match parseJson (jsTrim ch.dropLast) with
   | some j => !statusIsError j
   | none => false)

/-- Events allowed in a FIFO-correlation run: sends and whole good
response lines. -/
def fifoEv (e : Ev) : Bool :=
  match e with
  | Ev.sendCall _ _ => true
  | Ev.stdoutData ch => goodChunk ch
  | _ => false

/-- Every response line of the trace is preceded by enough sends: running
credit (starting from the queue length) never goes below zero.  This is
the property that the worker only answers commands it has received. -/
def okTrace : Nat → List Ev → Bool
  | _, [] => true
  | credit, e :: tr =>
    match e with
    | Ev.sendCall _ _ => okTrace (credit + 1) tr
    | Ev.stdoutData _ => credit != 0 && okTrace (credit - 1) tr
    | _ => okTrace credit tr

/-- Splitting a newline-free string yields the single fragment. -/
theorem splitNl_no_nl (s : List Char) (h : '\n' ∉ s) : splitNl s = [s] := by
  induction s with
  | nil => rfl
  | cons c cs ih =>
    have hc : ¬(c = '\n') := fun e => h (e ▸ List.mem_cons_self c cs)
    have hcs : '\n' ∉ cs := fun hm => h (List.mem_cons_of_mem c hm)
    unfold splitNl
    rw [if_neg hc, ih hcs]

/-- Splitting at the first newline peels off the newline-free prefix. -/
theorem splitNl_append_cons (a b : List Char) (h : '\n' ∉ a) :
    splitNl (a ++ '\n' :: b) = a :: splitNl b := by
  induction a with
  | nil => simp [splitNl]
  | cons c cs ih =>
    have hc : ¬(c = '\n') := fun e => h (e ▸ List.mem_cons_self c cs)
    have hcs : '\n' ∉ cs := fun hm => h (List.mem_cons_of_mem c hm)
    simp only [List.cons_append]
    unfold splitNl
    rw [if_neg hc, ih hcs]
    rw [← splitNl.eq_def]

/-- Reconstruct a list from its `dropLast` and `getLast?`. -/
theorem eq_dropLast_append_of_getLast? (ch : List Char) (c : Char)
    (h : ch.getLast? = some c) : ch = ch.dropLast ++ [c] := by
  induction ch with
  | nil => simp at h
  | cons x xs ih =>
    cases xs with
    | nil =>
      simp only [List.getLast?_singleton, Option.some.injEq] at h
      simp [h]
    | cons y ys =>
      have h2 : (y :: ys).getLast? = some c := by
        rw [List.getLast?_cons_cons] at h
        exact h
      have := ih h2
      rw [List.dropLast_cons₂, List.cons_append]
      exact congrArg (x :: ·) this

/-- `rejectInitAttempt` does not touch the queue. -/
theorem rejectInitAttempt_pend (a : Nat) (m : List Char) (st : Bridge) :
    (rejectInitAttempt a m st).1.pendingRequests = st.pendingRequests :=
  (rejectInitAttempt_pres a m st).1

/-- `resolveInitAttempt` does not touch the queue. -/
theorem resolveInitAttempt_pend (a : Nat) (resp : Json) (st : Bridge) :
    (resolveInitAttempt a resp st).1.pendingRequests = st.pendingRequests := by
  unfold resolveInitAttempt
  split
  · dsimp only
    split <;> rfl
  · exact rejectInitAttempt_pend _ _ _

/-- A queue of `sendCommand` requests with no caller ids is empty. -/
theorem pendRids_nil (ps : List Pending) (hall : allCallReq ps = true)
    (h : pendRids ps = []) : ps = [] := by
  cases ps with
  | nil => rfl
  | cons p rest =>
    cases hk : p.kind with
    | callReq r => simp [pendRids, hk] at h
    | initReq a => simp [allCallReq, hk] at hall

/-- One good chunk on an empty buffer delivers exactly one complete line
and resolves the head of the queue (a `sendCommand` request) with the
line's parsed payload. -/
theorem stepData_ready (st : Bridge) (ch : List Char) (j : Json) (p : Pending)
    (rest : List Pending) (r : Nat)
    (hb : st.outputBuffer = [])
    (hlast : ch.getLast? = some '\n') (hnl : '\n' ∉ ch.dropLast)
    (hne : ¬(jsTrim ch.dropLast = []))
    (hj : parseJson (jsTrim ch.dropLast) = some j)
    (hs : statusIsError j = false)
    (hq : st.pendingRequests = p :: rest) (hk : p.kind = ReqKind.callReq r) :
    stepData ch st =
      ({ st with outputBuffer := [], pendingRequests := rest,
                 armedTimers := clearTimer p.timerId st.armedTimers },
        [Out.resolved r j]) := by
  have hdecomp : ch = ch.dropLast ++ ['\n'] := eq_dropLast_append_of_getLast? ch '\n' hlast
  have hsplit : splitNl (st.outputBuffer ++ ch) = [ch.dropLast, []] := by
    rw [hb, List.nil_append]
    conv_lhs => rw [hdecomp]
    rw [splitNl_append_cons ch.dropLast [] hnl]
    rfl
  unfold stepData
  dsimp only
  rw [hsplit]
  have h1 : ([ch.dropLast, ([] : List Char)].getLast?).getD [] = ([] : List Char) := rfl
  have h2 : [ch.dropLast, ([] : List Char)].dropLast = [ch.dropLast] := rfl
  rw [h1, h2]
  unfold processLines
  dsimp only
  rw [if_neg hne]
  unfold processResponseLine
  have h3 : ({ st with outputBuffer := ([] : List Char) }).pendingRequests = p :: rest := hq
  rw [hj, h3]
  simp [hs, hk, processLines]

/-- FIFO run lemma: over any interleaving of sends and whole good response
lines in which responses never outnumber issued commands, the emitted
outputs pair the k-th response line with the k-th queued caller, in order,
and the queue ends as the not-yet-answered suffix. -/
theorem fifo_run_aux (tr : List Ev) : ∀ st : Bridge,
    st.isInitialized = true → st.pythonProcess.isSome = true →
    st.outputBuffer = [] → allCallReq st.pendingRequests = true →
    (∀ e ∈ tr, fifoEv e = true) →
    okTrace st.pendingRequests.length tr = true →
    (runEvs tr st).2 =
      List.zipWith Out.resolved (pendRids st.pendingRequests ++ sendRids tr)
        (linePayloads tr) ∧
    pendRids (runEvs tr st).1.pendingRequests =
      List.drop (linePayloads tr).length (pendRids st.pendingRequests ++ sendRids tr) ∧
    allCallReq (runEvs tr st).1.pendingRequests = true := by
  induction tr with
  | nil =>
    intro st h1 h2 h3 h4 _ _
    refine ⟨?_, ?_, h4⟩
    · simp [runEvs, linePayloads]
    · simp [runEvs, linePayloads, sendRids]
  | cons e rest ih =>
    intro st h1 h2 h3 h4 hev hok
    have heve : fifoEv e = true := hev e (List.mem_cons_self e rest)
    have hevr : ∀ e2 ∈ rest, fifoEv e2 = true :=
      fun e2 h => hev e2 (List.mem_cons_of_mem e h)
    cases e with
    | initCall k => simp [fifoEv] at heve
    | timerFire t => simp [fifoEv] at heve
    | procClose pid => simp [fifoEv] at heve
    | shutdownCall => simp [fifoEv] at heve
    | sendCall r c =>
      have hok2 : okTrace (st.pendingRequests.length + 1) rest = true := by
        unfold okTrace at hok
        exact hok
      have hstep : stepEv (Ev.sendCall r c) st =
          ({ st with
              armedTimers := (st.nextTimer, TimerCb.callTimeout r) :: st.armedTimers,
              nextTimer := st.nextTimer + 1,
              pendingRequests := st.pendingRequests ++
                [Pending.mk (ReqKind.callReq r) st.nextTimer],
              stdinLog := st.stdinLog ++ [c] }, []) := by
        simp [stepEv, stepSendCall, h1, h2]
      have h4b : allCallReq (st.pendingRequests ++
          [Pending.mk (ReqKind.callReq r) st.nextTimer]) = true := by
        simp only [allCallReq, List.all_append] at h4 ⊢
        rw [h4]
        rfl
      have hokb : okTrace ((st.pendingRequests ++
          [Pending.mk (ReqKind.callReq r) st.nextTimer]).length) rest = true := by
        simpa using hok2
      have hi := ih
        { st with
            armedTimers := (st.nextTimer, TimerCb.callTimeout r) :: st.armedTimers,
            nextTimer := st.nextTimer + 1,
            pendingRequests := st.pendingRequests ++
              [Pending.mk (ReqKind.callReq r) st.nextTimer],
            stdinLog := st.stdinLog ++ [c] } h1 h2 h3 h4b hevr hokb
      simp only [runEvs, hstep, List.nil_append]
      have hpr : pendRids (st.pendingRequests ++
          [Pending.mk (ReqKind.callReq r) st.nextTimer]) =
          pendRids st.pendingRequests ++ [r] := by
        simp [pendRids, List.filterMap_append]
      rw [hpr] at hi
      have hsr : sendRids (Ev.sendCall r c :: rest) = r :: sendRids rest := by
        simp [sendRids]
      have hlp : linePayloads (Ev.sendCall r c :: rest) = linePayloads rest := by
        simp [linePayloads]
      rw [hsr, hlp]
      refine ⟨?_, ?_, hi.2.2⟩
      · rw [hi.1]
        simp [List.append_assoc]
      · rw [hi.2.1]
        simp [List.append_assoc]
    | stdoutData ch =>
      have hcomp := heve
      unfold fifoEv goodChunk at hcomp
      rw [Bool.and_eq_true, Bool.and_eq_true, Bool.and_eq_true] at hcomp
      obtain ⟨⟨⟨hlast, hnl⟩, hne⟩, hmatch⟩ := hcomp
      rw [decide_eq_true_eq] at hlast
      rw [Bool.not_eq_true', decide_eq_false_iff_not] at hnl
      rw [Bool.not_eq_true', decide_eq_false_iff_not] at hne
      have hj : ∃ j, parseJson (jsTrim ch.dropLast) = some j ∧
          statusIsError j = false := by
        cases hp : parseJson (jsTrim ch.dropLast) with
        | none => rw [hp] at hmatch; exact absurd hmatch (by simp)
        | some j =>
          rw [hp] at hmatch
          exact ⟨j, rfl, by simpa using hmatch⟩
      obtain ⟨j, hjp, hjs⟩ := hj
      have hcredit : st.pendingRequests.length ≠ 0 := by
        unfold okTrace at hok
        rw [Bool.and_eq_true] at hok
        simpa using hok.1
      cases hq : st.pendingRequests with
      | nil => rw [hq] at hcredit; simp at hcredit
      | cons p rest2 =>
        have hk : ∃ r, p.kind = ReqKind.callReq r := by
          rw [hq] at h4
          unfold allCallReq at h4
          rw [List.all_cons, Bool.and_eq_true] at h4
          cases hpk : p.kind with
          | callReq r => exact ⟨r, rfl⟩
          | initReq a => rw [hpk] at h4; exact absurd h4.1 (by simp)
        obtain ⟨r, hkr⟩ := hk
        have hstep : stepEv (Ev.stdoutData ch) st =
            ({ st with outputBuffer := [], pendingRequests := rest2,
                       armedTimers := clearTimer p.timerId st.armedTimers },
              [Out.resolved r j]) :=
          stepData_ready st ch j p rest2 r h3 hlast hnl hne hjp hjs hq hkr
        have h4b : allCallReq rest2 = true := by
          rw [hq] at h4
          unfold allCallReq at h4
          rw [List.all_cons, Bool.and_eq_true] at h4
          exact h4.2
        have hokb : okTrace rest2.length rest = true := by
          unfold okTrace at hok
          rw [Bool.and_eq_true] at hok
          have := hok.2
          rw [hq] at this
          simpa using this
        have hi := ih
          { st with outputBuffer := [], pendingRequests := rest2,
                    armedTimers := clearTimer p.timerId st.armedTimers }
          h1 h2 rfl h4b hevr hokb
        simp only [runEvs, hstep]
        have hpr : pendRids (p :: rest2) = r :: pendRids rest2 := by
          simp [pendRids, hkr]
        have hlp : linePayloads (Ev.stdoutData ch :: rest) =
            j :: linePayloads rest := by
          simp [linePayloads, hjp]
        have hsr : sendRids (Ev.stdoutData ch :: rest) = sendRids rest := by
          simp [sendRids]
        rw [hpr, hlp, hsr]
        refine ⟨?_, ?_, hi.2.2⟩
        · rw [hi.1]
          simp
        · rw [hi.2.1]
          simp

/-- Claim C1: on a `Ready` bridge with an empty queue, for any interleaving
of sends C1..Cn and whole response lines R1..Rn (in those orders, each
line preceded by enough sends, no timeouts), the outputs are exactly
"Ck resolves with Rk's payload" in order, and the queue is empty at the
end; moreover each successfully parsed response line consumes exactly the
oldest `PendingRequest` in the queue. -/
theorem C1_fifo_correlation (st : Bridge) (tr : List Ev)
    (h1 : st.isInitialized = true) (h2 : st.pythonProcess.isSome = true)
    (h3 : st.outputBuffer = []) (h4 : st.pendingRequests = [])
    (hev : ∀ e ∈ tr, fifoEv e = true) (hok : okTrace 0 tr = true)
    (hlen : (linePayloads tr).length = (sendRids tr).length) :
    (runEvs tr st).2 = List.zipWith Out.resolved (sendRids tr) (linePayloads tr) ∧
    (runEvs tr st).1.pendingRequests = [] ∧
    (∀ (st2 : Bridge) (line : List Char) (j : Json) (p : Pending)
      (rest2 : List Pending), parseJson line = some j →
      st2.pendingRequests = p :: rest2 →
      (processResponseLine line st2).1.pendingRequests = rest2) := by
  have h4b : allCallReq st.pendingRequests = true := by rw [h4]; rfl
  have hokb : okTrace st.pendingRequests.length tr = true := by rw [h4]; exact hok
  have haux := fifo_run_aux tr st h1 h2 h3 h4b hev hokb
  rw [h4] at haux
  refine ⟨?_, ?_, ?_⟩
  · have := haux.1
    simpa [pendRids] using this
  · have h5 := haux.2.1
    have hnil : pendRids (runEvs tr st).1.pendingRequests = [] := by
      rw [h5, hlen]
      simp [pendRids, List.drop_length]
    exact pendRids_nil _ haux.2.2 hnil
  · intro st2 line j p rest2 hp hq
    unfold processResponseLine
    rw [hp, hq]
    cases hk : p.kind with
    | callReq r =>
      by_cases hs : statusIsError j = true <;> simp [hk, hs]
    | initReq a =>
      by_cases hs : statusIsError j = true <;>
        simp [hk, hs, rejectInitAttempt_pend, resolveInitAttempt_pend]

/-- The worker's third response line. -/
def r3line : List Char :=
  "\x7b\"status\":\"success\",\"data\":\x7b\"response\":\"three\"\x7d\x7d\n".data

/-- A concrete interleaving for the C1 witness: send 1, R1 arrives, send 2
and 3, R2 and R3 arrive. -/
def c1Trace : List Ev :=
  [Ev.sendCall 1 chatCmd, Ev.stdoutData r1line, Ev.sendCall 2 chatCmd,
   Ev.sendCall 3 chatCmd, Ev.stdoutData r2line, Ev.stdoutData r3line]

/-- Witness for C1 at the concrete interleaving `c1Trace` on the `Ready`
bridge. -/
theorem C1_fifo_correlation_witness :
    readySt.pendingRequests = [] ∧
    (runEvs c1Trace readySt).2 =
      List.zipWith Out.resolved (sendRids c1Trace) (linePayloads c1Trace) ∧
    (runEvs c1Trace readySt).1.pendingRequests = [] :=
  ⟨rfl,
   (C1_fifo_correlation readySt c1Trace rfl rfl rfl rfl (by decide) rfl rfl).1,
   (C1_fifo_correlation readySt c1Trace rfl rfl rfl rfl (by decide) rfl rfl).2.1⟩

/-! ## C3: line reassembly across partial chunks -/

/-- Split a list at its first newline. -/
theorem exists_first_nl (c : List Char) (h : '\n' ∈ c) :
    ∃ a b, c = a ++ '\n' :: b ∧ '\n' ∉ a := by
  induction c with
  | nil => simp at h
  | cons x xs ih =>
    by_cases hx : x = '\n'
    · exact ⟨[], xs, by rw [hx]; rfl, by simp⟩
    · have hxs : '\n' ∈ xs := by
        rcases List.mem_cons.mp h with h1 | h1
        · exact absurd h1.symm hx
        · exact h1
      obtain ⟨a, b, hab, hna⟩ := ih hxs
      refine ⟨x :: a, b, by rw [List.cons_append, ← hab], ?_⟩
      intro hm
      rcases List.mem_cons.mp hm with h2 | h2
      · exact hx h2.symm
      · exact hna h2
/-- A newline-terminated string decomposes uniquely at its only
newline. -/
theorem nl_split_unique (b : List Char) : ∀ (a s : List Char), '\n' ∉ a →
    '\n' ∉ s → a ++ '\n' :: b = s ++ ['\n'] → a = s ∧ b = [] := by
  intro a
  induction a with
  | nil =>
    intro s ha hs h
    cases s with
    | nil =>
      rw [List.nil_append, List.nil_append] at h
      have hb : b = [] := by simpa using h
      exact ⟨rfl, hb⟩
    | cons y ys =>
      rw [List.nil_append, List.cons_append] at h
      injection h with h1 h2
      exfalso
      apply hs
      rw [← h1]
      exact List.mem_cons_self _ _
  | cons x xs ih =>
    intro s ha hs h
    cases s with
    | nil =>
      rw [List.cons_append, List.nil_append] at h
      injection h with h1 h2
      exfalso
      apply ha
      rw [h1]
      exact List.mem_cons_self _ _
    | cons y ys =>
      rw [List.cons_append, List.cons_append] at h
      injection h with h1 h2
      have ha2 : '\n' ∉ xs := fun hm => ha (List.mem_cons_of_mem x hm)
      have hs2 : '\n' ∉ ys := fun hm => hs (List.mem_cons_of_mem y hm)
      obtain ⟨e1, e2⟩ := ih ys ha2 hs2 h2
      refine ⟨?_, e2⟩
      rw [h1, e1]

/-- A chunk without a newline only extends the buffer: no line completes,
nothing is processed. -/
theorem stepData_no_nl (ch : List Char) (st : Bridge)
    (h : '\n' ∉ st.outputBuffer ++ ch) :
    stepData ch st = ({ st with outputBuffer := st.outputBuffer ++ ch }, []) := by
  unfold stepData
  dsimp only
  rw [splitNl_no_nl _ h]
  rfl

/-- An empty chunk leaves the bridge unchanged. -/
theorem stepData_nil_chunk (st : Bridge) (h : '\n' ∉ st.outputBuffer) :
    stepData [] st = (st, []) := by
  have h2 := stepData_no_nl [] st (by simpa using h)
  rw [List.append_nil] at h2
  exact h2

/-- Empty chunks in sequence leave the bridge unchanged. -/
theorem run_empty_chunks (cs : List (List Char)) : ∀ st : Bridge,
    (∀ c ∈ cs, c = []) → '\n' ∉ st.outputBuffer →
    runEvs (cs.map Ev.stdoutData) st = (st, []) := by
  induction cs with
  | nil => intro st _ _; rfl
  | cons c rest ih =>
    intro st hall hbuf
    have hc : c = [] := hall c (List.mem_cons_self c rest)
    have hr : ∀ c2 ∈ rest, c2 = [] := fun c2 h => hall c2 (List.mem_cons_of_mem c h)
    have hstep : stepEv (Ev.stdoutData c) st = (st, []) := by
      rw [hc]
      exact stepData_nil_chunk st hbuf
    simp only [List.map_cons, runEvs, hstep]
    rw [ih st hr hbuf]
    rfl


/-- A chunk completing exactly one line (buffer plus chunk is the
newline-terminated line) processes that line, emptying the buffer and
resolving the queue head. -/
theorem stepData_line (st : Bridge) (ch s : List Char) (j : Json) (p : Pending)
    (rest : List Pending) (r : Nat)
    (hcat : st.outputBuffer ++ ch = s ++ ['\n']) (hnl : '\n' ∉ s)
    (hne : ¬(jsTrim s = [])) (hj : parseJson (jsTrim s) = some j)
    (hs : statusIsError j = false)
    (hq : st.pendingRequests = p :: rest) (hk : p.kind = ReqKind.callReq r) :
    stepData ch st =
      ({ st with outputBuffer := [], pendingRequests := rest,
                 armedTimers := clearTimer p.timerId st.armedTimers },
        [Out.resolved r j]) := by
  have hsplit : splitNl (st.outputBuffer ++ ch) = [s, []] := by
    rw [hcat, splitNl_append_cons s [] hnl]
    rfl
  unfold stepData
  dsimp only
  rw [hsplit]
  have h1 : ([s, ([] : List Char)].getLast?).getD [] = ([] : List Char) := rfl
  have h2 : [s, ([] : List Char)].dropLast = [s] := rfl
  rw [h1, h2]
  unfold processLines
  dsimp only
  rw [if_neg hne]
  unfold processResponseLine
  have h3 : ({ st with outputBuffer := ([] : List Char) }).pendingRequests =
      p :: rest := hq
  rw [hj, h3]
  simp [hs, hk, processLines]

/-- Reassembly run: chunks whose concatenation (after the current buffer)
is one newline-terminated response line produce exactly one resolution of
the queue head, regardless of how the line is split across the chunks. -/
theorem reassembly_aux (chunks : List (List Char)) : ∀ (st : Bridge) (s : List Char)
    (j : Json) (p : Pending) (rest : List Pending) (r : Nat),
    '\n' ∉ st.outputBuffer →
    st.outputBuffer ++ chunks.flatten = s ++ ['\n'] →
    '\n' ∉ s → ¬(jsTrim s = []) → parseJson (jsTrim s) = some j →
    statusIsError j = false →
    st.pendingRequests = p :: rest → p.kind = ReqKind.callReq r →
    runEvs (chunks.map Ev.stdoutData) st =
      ({ st with outputBuffer := [], pendingRequests := rest,
                 armedTimers := clearTimer p.timerId st.armedTimers },
        [Out.resolved r j]) := by
  induction chunks with
  | nil =>
    intro st s j p rest r hbuf hcat hnl hne hj hs hq hk
    exfalso
    rw [List.flatten_nil, List.append_nil] at hcat
    apply hbuf
    rw [hcat]
    simp
  | cons c cs ih =>
    intro st s j p rest r hbuf hcat hnl hne hj hs hq hk
    rw [List.flatten_cons] at hcat
    by_cases hm : '\n' ∈ c
    · obtain ⟨c0, c1, hcdec, hc0⟩ := exists_first_nl c hm
      have hcat2 : (st.outputBuffer ++ c0) ++ '\n' :: (c1 ++ cs.flatten) =
          s ++ ['\n'] := by
        rw [hcdec] at hcat
        rw [← hcat]
        simp [List.append_assoc]
      have hfree : '\n' ∉ st.outputBuffer ++ c0 := by
        intro hmem
        rcases List.mem_append.mp hmem with h | h
        · exact hbuf h
        · exact hc0 h
      obtain ⟨hpre, hpost⟩ := nl_split_unique (c1 ++ cs.flatten) _ s hfree hnl hcat2
      have hc1 : c1 = [] := (List.append_eq_nil.mp hpost).1
      have hjoin : cs.flatten = [] := (List.append_eq_nil.mp hpost).2
      have hallnil : ∀ c2 ∈ cs, c2 = [] := by
        intro c2 h2
        have := List.flatten_eq_nil_iff.mp hjoin
        exact this c2 h2
      have hcatc : st.outputBuffer ++ c = s ++ ['\n'] := by
        rw [hcdec, hc1]
        rw [← hpre]
        simp [List.append_assoc]
      have hstep : stepEv (Ev.stdoutData c) st =
          ({ st with outputBuffer := [], pendingRequests := rest,
                     armedTimers := clearTimer p.timerId st.armedTimers },
            [Out.resolved r j]) :=
        stepData_line st c s j p rest r hcatc hnl hne hj hs hq hk
      simp only [List.map_cons, runEvs, hstep]
      rw [run_empty_chunks cs _ hallnil (by simp)]
      rfl
    · have hfree : '\n' ∉ st.outputBuffer ++ c := by
        intro hmem
        rcases List.mem_append.mp hmem with h | h
        · exact hbuf h
        · exact hm h
      have hstep : stepEv (Ev.stdoutData c) st =
          ({ st with outputBuffer := st.outputBuffer ++ c }, []) :=
        stepData_no_nl c st hfree
      have hcat2 : ({ st with outputBuffer := st.outputBuffer ++ c } :
          Bridge).outputBuffer ++ cs.flatten = s ++ ['\n'] := by
        show (st.outputBuffer ++ c) ++ cs.flatten = s ++ ['\n']
        rw [List.append_assoc]
        exact hcat
      have hi := ih { st with outputBuffer := st.outputBuffer ++ c }
        s j p rest r hfree hcat2 hnl hne hj hs hq hk
      simp only [List.map_cons, runEvs, hstep, hi]
      rfl

/-- Claim C3: a response line delivered split across any number of partial
data chunks — whose concatenation is one newline-terminated JSON object —
produces exactly one parsed response, resolving exactly the one oldest
pending caller (not zero and not two), and leaves the buffer empty. -/
theorem C3_line_reassembly (st : Bridge) (chunks : List (List Char))
    (s : List Char) (j : Json) (p : Pending) (rest : List Pending) (r : Nat)
    (hbuf : st.outputBuffer = [])
    (hcat : chunks.flatten = s ++ ['\n']) (hnl : '\n' ∉ s)
    (hne : ¬(jsTrim s = [])) (hj : parseJson (jsTrim s) = some j)
    (hs : statusIsError j = false)
    (hq : st.pendingRequests = p :: rest) (hk : p.kind = ReqKind.callReq r) :
    (runEvs (chunks.map Ev.stdoutData) st).2 = [Out.resolved r j] ∧
    (runEvs (chunks.map Ev.stdoutData) st).1.pendingRequests = rest ∧
    (runEvs (chunks.map Ev.stdoutData) st).1.outputBuffer = [] := by
  have hb2 : '\n' ∉ st.outputBuffer := by rw [hbuf]; simp
  have hc2 : st.outputBuffer ++ chunks.flatten = s ++ ['\n'] := by
    rw [hbuf, List.nil_append]
    exact hcat
  have hrun := reassembly_aux chunks st s j p rest r hb2 hc2 hnl hne hj hs hq hk
  rw [hrun]
  exact ⟨rfl, rfl, rfl⟩

/-- Witness for C3: the spec's example line delivered in three partial
writes on a bridge with one pending caller. -/
theorem C3_line_reassembly_witness :
    (["\x7b\"status\":\"success\",".data,
      "\"data\":\x7b\"response\":\"hi\"\x7d\x7d".data,
      "\n".data] : List (List Char)).flatten =
      "\x7b\"status\":\"success\",\"data\":\x7b\"response\":\"hi\"\x7d\x7d".data ++ ['\n'] ∧
    (runEvs ((["\x7b\"status\":\"success\",".data,
      "\"data\":\x7b\"response\":\"hi\"\x7d\x7d".data,
      "\n".data] : List (List Char)).map Ev.stdoutData) busySt).2 =
      [Out.resolved 1 (Json.obj [("status".data, Json.str "success".data),
        ("data".data, Json.obj [("response".data, Json.str "hi".data)])])] :=
  ⟨rfl,
   (C3_line_reassembly busySt
     ["\x7b\"status\":\"success\",".data,
      "\"data\":\x7b\"response\":\"hi\"\x7d\x7d".data,
      "\n".data]
     ("\x7b\"status\":\"success\",\"data\":\x7b\"response\":\"hi\"\x7d\x7d".data)
     (Json.obj [("status".data, Json.str "success".data),
       ("data".data, Json.obj [("response".data, Json.str "hi".data)])])
     (Pending.mk (ReqKind.callReq 1) 1) [] 1
     rfl rfl (by decide) (by decide) rfl rfl rfl rfl).1⟩
